import Mathlib

/-!
Shallow embedding of the timing core of `lirc_tegra.c` (an out-of-tree
Linux kernel module for IR receive/transmit on GPIO pins), together with
theorems checking the natural-language specification against it.

C `int` values are modelled as `Int`, C unsigned quantities as `Nat` with
explicit wrap-around (`% 2^32` / `% 2^64`) where C arithmetic can wrap.
Bitwise operations on C `int` go through a two's-complement view
(`u32` / `ofU32`).  External kernel collaborators (`lirc_buffer`, GPIO,
clock) are modelled as explicit state / oracles.
-/

namespace LircTegra

/-! ## C integer helpers -/

/-- Two's-complement 32-bit view of a C `int` value. -/
def u32 (a : Int) : Nat := (a % (4294967296 : Int)).toNat

/-- Read a 32-bit word back as a signed C `int`. -/
def ofU32 (n : Nat) : Int :=
  if n < 2147483648 then (n : Int) else (n : Int) - 4294967296

/-- C bitwise `&` on `int`. -/
def andI (a b : Int) : Int := ofU32 (u32 a &&& u32 b)

/-- C bitwise `|` on `int`. -/
def orI (a b : Int) : Int := ofU32 (u32 a ||| u32 b)

/-- C bitwise `^` on `int`. -/
def xorI (a b : Int) : Int := ofU32 (u32 a ^^^ u32 b)

/-- C `unsigned int` subtraction `a - b` (wraps modulo `2^32`). -/
def sub32 (a b : Nat) : Nat := (a % 4294967296 + 4294967296 - b % 4294967296) % 4294967296

/-- Reduce modulo `2^64`, the width of C `unsigned long` on the target. -/
def w64 (a : Nat) : Nat := a % 18446744073709551616

/-- C `unsigned long` subtraction `a - b` (wraps modulo `2^64`). -/
def sub64 (a b : Nat) : Nat := (a % 18446744073709551616 + 18446744073709551616 - b % 18446744073709551616) % 18446744073709551616

/-- C cast of an unsigned value to `int`: keep the low 32 bits, signed. -/
def toI32 (a : Nat) : Int := ofU32 (a % 4294967296)

/-! ## Constants from `lirc_tegra.c` and `media/lirc.h` -/

/-- `PULSE_BIT` from media/lirc.h: `0x01000000`. -/
def PULSE_BIT : Int := 16777216

/-- `PULSE_MASK` from media/lirc.h: `0x00FFFFFF`. -/
def PULSE_MASK : Int := 16777215

/-- `LIRC_TRANSMITTER_LATENCY` (line 49). -/
def LIRC_TRANSMITTER_LATENCY : Nat := 50

/-- `RBUF_LEN` (line 48). -/
def RBUF_LEN : Nat := 256

/-- `MAX_UDELAY_US` (line 52). -/
def MAX_UDELAY_US : Nat := 5000

/-- `LIRC_MODE_PULSE` from media/lirc.h: `0x00000002`. -/
def LIRC_MODE_PULSE : Nat := 2

/-! ## Carrier Timing Engine: `init_timing_params` (lines 132-157)

State of the module globals set by `init_timing_params`:
`freq`, `duty_cycle` are C `unsigned int`; `period`, `pulse_width`,
`space_width` are C `unsigned long`.  `INVALID` (= -1) stored into an
unsigned field wraps to the all-ones value of that width. -/

structure CarrierSt where
  freq : Nat
  duty_cycle : Nat
  period : Nat
  pulse_width : Nat
  space_width : Nat
deriving DecidableEq

/-- Embedding of `init_timing_params` (lines 132-157).  Returns the C
return value (`0` or `-EINVAL` = -22) and the new global state.  The C
expression `1000 * 1000000L / new_freq * new_duty_cycle / 100` is
left-associated `long` arithmetic on non-negative operands, hence plain
`Nat` division; `100 - new_duty_cycle` is `unsigned int` arithmetic. -/
def init_timing_params (new_duty_cycle new_freq : Nat) (st : CarrierSt) : Int × CarrierSt :=
  if 0 < new_freq then
    if 1000 * 1000000 / new_freq * new_duty_cycle / 100 ≤ LIRC_TRANSMITTER_LATENCY then
      (-22, st)
    else if 1000 * 1000000 / new_freq * (sub32 100 new_duty_cycle) / 100 ≤ LIRC_TRANSMITTER_LATENCY then
      (-22, st)
    else
      let period := 1000 * 1000000 / new_freq
      let pulse_width := period * new_duty_cycle / 100
      let space_width := sub64 period pulse_width
      (0, ⟨new_freq, new_duty_cycle, period, pulse_width, space_width⟩)
  else
    (0, ⟨0, 4294967295, 18446744073709551615, 18446744073709551615, 18446744073709551615⟩)

/-! ## Sense Calibrator: the autodetection loop of `init_port` (lines 429-449) -/

/-- Embedding of the 9-sample voting loop of `init_port` (lines 437-445):
`get i` is the level read by `gpiochip->get` on the i-th probe (true =
electrically high); a high sample increments `nlow` (votes for an
active-low receiver), a low sample increments `nhigh`. -/
def init_port_votes (get : Nat → Bool) : Nat × Nat :=
  (List.range 9).foldl
    (fun p i => if get i then (p.1 + 1, p.2) else (p.1, p.2 + 1)) (0, 0)

/-- Embedding of the auto-sense decision of `init_port` (line 446):
`sense = (nlow >= nhigh ? 1 : 0)`. -/
def init_port_sense (get : Nat → Bool) : Int :=
  let v := init_port_votes get
  if v.2 ≤ v.1 then 1 else 0

/-! ## Ring Buffer: `rbwrite` (lines 222-230) over the external `lirc_buffer` -/

/-- Modelled from the spec: the external `lirc_buffer` fifo of
`media/lirc_dev.h` (declared at line 102, not part of this repository),
as the spec's Ring Buffer (spec section 4.3): a fixed-capacity FIFO of
records plus the sticky overflow flag the spec makes observable by the
consumer. -/
structure RingBuffer where
  capacity : Nat
  data : List Int
  overflow : Bool
deriving DecidableEq

/-- Modelled from the spec: `lirc_buffer_init` with `RBUF_LEN` chunks
(line 645) — an empty buffer of the given capacity. -/
def lirc_buffer_init (cap : Nat) : RingBuffer := ⟨cap, [], false⟩

/-- Modelled from the spec: `lirc_buffer_full` — the fifo holds
`capacity` records. -/
def lirc_buffer_full (b : RingBuffer) : Bool := b.capacity ≤ b.data.length

/-- Modelled from the spec: `lirc_buffer_write` appends one record at
the back of the fifo. -/
def lirc_buffer_write (l : Int) (b : RingBuffer) : RingBuffer :=
  { b with data := b.data ++ [l] }

/-- Modelled from the spec: `lirc_buffer_read` pops the front record. -/
def lirc_buffer_read (b : RingBuffer) : Option (Int × RingBuffer) :=
  match b.data with
  | [] => none
  | l :: rest => some (l, { b with data := rest })

/-- Embedding of `rbwrite` (lines 222-230): a write against a full
buffer silently drops the new record (the stored records are untouched);
per the spec (section 4.3 / 7) the overflow event sets the sticky
overflow flag, which lives in the external buffer and is modelled from
the spec. -/
def rbwrite (l : Int) (b : RingBuffer) : RingBuffer :=
  if lirc_buffer_full b then
    { b with overflow := true }
  else
    lirc_buffer_write l b

/-! ## Noise Filter: `frbwrite` (lines 232-273) -/

/-- The static locals of `frbwrite`: `pulse`, `space` (C `int`) and
`ptr` (C `unsigned int`). -/
structure FiltSt where
  pulse : Int
  space : Int
  ptr : Nat
deriving DecidableEq

/-- Receive-path driver state: `sense` (line 84, C `int`, -1 = auto),
`lasttv` (line 101, seconds and microseconds), the `frbwrite` statics
and the ring buffer `rbuf`. -/
structure DrvSt where
  sense : Int
  lasttv : Int × Int
  filt : FiltSt
  buf : RingBuffer
deriving DecidableEq

/-- Write one record into `rbuf` (the `rbwrite` calls inside
`frbwrite`). -/
def rbwriteS (l : Int) (st : DrvSt) : DrvSt := { st with buf := rbwrite l st.buf }

/-- Embedding of `frbwrite` (lines 232-273), the simple noise filter:
a sub-threshold pulse arriving while a long space is pending is
accumulated; an over-threshold pulse flushes the pending (space, pulse)
pair; spaces arm, merge or flush according to the 20000 us gap
threshold. -/
def frbwrite (l : Int) (st : DrvSt) : DrvSt :=
  if 0 < st.filt.ptr ∧ andI l PULSE_BIT ≠ 0 then
    let pulse := st.filt.pulse + andI l PULSE_MASK
    if 250 < pulse then
      let st1 := rbwriteS st.filt.space st
      let st2 := rbwriteS (orI pulse PULSE_BIT) st1
      { st2 with filt := { st2.filt with ptr := 0, pulse := 0 } }
    else
      { st with filt := { st.filt with pulse := pulse } }
  else if andI l PULSE_BIT = 0 then
    if st.filt.ptr = 0 then
      if 20000 < l then
        { st with filt := { st.filt with space := l, ptr := st.filt.ptr + 1 } }
      else
        rbwriteS l st
    else
      if 20000 < l then
        let space1 := st.filt.space + st.filt.pulse
        let space2 := if PULSE_MASK < space1 then PULSE_MASK else space1
        let space3 := space2 + l
        let space4 := if PULSE_MASK < space3 then PULSE_MASK else space3
        { st with filt := { st.filt with space := space4, pulse := 0 } }
      else
        let st1 := rbwriteS st.filt.space st
        let st2 := rbwriteS (orI st.filt.pulse PULSE_BIT) st1
        let st3 := { st2 with filt := { st2.filt with ptr := 0, pulse := 0 } }
        rbwriteS l st3
  else
    rbwriteS l st

/-! ## Receive Decoder: `irq_handler` (lines 275-325) -/

/-- Embedding of `irq_handler` (lines 275-325).  `signal` is the level
returned by `gpiochip->get` on the input pin, `tv` the timestamp
delivered by `do_gettimeofday` (seconds, microseconds).  Returns the new
driver state together with the record handed to `frbwrite` (`none` when
`sense == -1` and the edge is ignored).  In the idle-timeout branch the
sanity check may flip `sense` before the record is tagged, exactly as in
the source. -/
def irq_handler (signal : Int) (tv : Int × Int) (st : DrvSt) : DrvSt × Option Int :=
  if st.sense = -1 then
    (st, none)
  else
    let deltv : Int := tv.1 - st.lasttv.1
    let ds : Int × Int :=
      if tv.1 < st.lasttv.1 ∨ (tv.1 = st.lasttv.1 ∧ tv.2 < st.lasttv.2) then
        (PULSE_MASK, st.sense)
      else if 15 < deltv then
        (PULSE_MASK,
          if xorI signal st.sense = 0 then (if st.sense ≠ 0 then 0 else 1) else st.sense)
      else
        (deltv * 1000000 + (tv.2 - st.lasttv.2), st.sense)
    let data := ds.1
    let sense1 := ds.2
    let rcd := if xorI signal sense1 ≠ 0 then data else orI data PULSE_BIT
    let st1 := frbwrite rcd { st with sense := sense1 }
    ({ st1 with lasttv := tv }, some rcd)

/-! ## Transmitter: `send_space`, `send_pulse`, `send_pulse_softcarrier`,
`safe_udelay`, `lirc_write` (lines 116-123, 159-220, 506-534)

Output-line writes and busy-waits are recorded as an event trace; the
clock (`read_current_us`) is an oracle `clk : Nat -> Nat` indexed by a
call counter kept in the state. -/

/-- One observable effect on the Line Driver / Clock Source: a
`gpiochip->set` call on an output pin index, or a `udelay` busy-wait. -/
inductive Event where
  | set : Nat → Bool → Event
  | delay : Nat → Event
deriving DecidableEq

/-- Transmit-path driver state: the module globals read by the transmit
functions, the clock-oracle call counter, and the event trace. -/
structure TxSt where
  n_transmitters : Nat
  tx_mask : Nat
  invert : Bool
  softcarrier : Bool
  freq : Nat
  pulse_width : Nat
  space_width : Nat
  clkIdx : Nat
  trace : List Event
deriving DecidableEq

/-- Embedding of `transmitter_enabled` (lines 112-114):
`tx_mask & (1 << n)` is nonzero exactly when bit `n` of `tx_mask` is
set. -/
def transmitter_enabled (st : TxSt) (n : Nat) : Bool := st.tx_mask.testBit n

/-- The `gpiochip->set` events produced by one `for` loop over the
configured transmitters that sets every enabled output line to `level`
(the loop shape at lines 172-174, 202-204, 214-216, 528-529). -/
def setEvents (st : TxSt) (level : Bool) : List Event :=
  (List.range st.n_transmitters).filterMap
    (fun i => if transmitter_enabled st i then some (Event.set i level) else none)

/-- Append the `gpiochip->set` events for all enabled lines to the
trace. -/
def setLines (st : TxSt) (level : Bool) : TxSt :=
  { st with trace := st.trace ++ setEvents st level }

/-- Embedding of `safe_udelay` (lines 116-123): chunk a long busy-wait
into `MAX_UDELAY_US` pieces plus a final remainder `udelay`. -/
def safe_udelay (usecs : Nat) : List Event :=
  if MAX_UDELAY_US < usecs then
    Event.delay MAX_UDELAY_US :: safe_udelay (usecs - MAX_UDELAY_US)
  else
    [Event.delay usecs]
termination_by usecs
decreasing_by simp [MAX_UDELAY_US] at *; omega

/-- Embedding of `send_space` (lines 211-220): drive every enabled line
to the idle level (`invert`), then — only for a positive duration —
busy-wait. -/
def send_space (length : Int) (st : TxSt) : TxSt :=
  let st1 := setLines st st.invert
  if length ≤ 0 then st1
  else { st1 with trace := st1.trace ++ safe_udelay length.toNat }

/-- The body of the `while (actual < length)` loop of
`send_pulse_softcarrier` (lines 171-188), with explicit fuel for the
clock-dependent termination.  All of `actual`, `target`, `actual_us`,
`target_us` are C `unsigned long`; the wait guard casts
`target_us - actual_us` to `int`. -/
def softLoop (clk : Nat → Nat) (length : Nat) (fuel : Nat) (actual target : Nat)
    (flag : Bool) (actual_us : Nat) (st : TxSt) : Option (Nat × TxSt) :=
  if length ≤ actual then
    some ((actual - length) / 1000, st)
  else
    match fuel with
    | 0 => none
    | fuel' + 1 =>
      let st1 := setLines st (!(flag ^^ st.invert))
      let target1 := w64 (target + (if flag then st.space_width else st.pulse_width))
      let initial_us := actual_us
      let target_us := w64 (actual_us + sub64 target1 actual / 1000)
      let d := sub64 target_us actual_us
      let st2 := if 0 < toI32 d then { st1 with trace := st1.trace ++ [Event.delay d] } else st1
      let actual_us1 := clk st2.clkIdx
      let st3 := { st2 with clkIdx := st2.clkIdx + 1 }
      let actual1 := w64 (actual + w64 (sub64 actual_us1 initial_us * 1000))
      softLoop clk length fuel' actual1 target1 (!flag) actual_us1 st3

/-- Embedding of `send_pulse_softcarrier` (lines 159-190): bit-bang the
carrier with drift correction; returns the overshoot
`(actual - length) / 1000` in microseconds (or `none` if the fuel for
the clock-driven loop runs out). -/
def send_pulse_softcarrier (clk : Nat → Nat) (fuel : Nat) (length : Nat) (st : TxSt) :
    Option (Nat × TxSt) :=
  let length1 := length * 1000
  let actual_us := clk st.clkIdx
  let st1 := { st with clkIdx := st.clkIdx + 1 }
  softLoop clk length1 fuel 0 0 false actual_us st1

/-- Embedding of `send_pulse` (lines 192-209): nothing for a
non-positive duration; soft-carrier bit-banging when enabled and a
carrier is set; otherwise a steady active level held with one coalesced
busy-wait, returning zero overshoot. -/
def send_pulse (clk : Nat → Nat) (fuel : Nat) (length : Int) (st : TxSt) :
    Option (Nat × TxSt) :=
  if length ≤ 0 then
    some (0, st)
  else if st.softcarrier ∧ 0 < st.freq then
    send_pulse_softcarrier clk fuel length.toNat st
  else
    let st1 := setLines st (!st.invert)
    some (0, { st1 with trace := st1.trace ++ safe_udelay length.toNat })

/-- The transmit loop of `lirc_write` (lines 522-527): even indices are
pulses (whose overshoot is carried in `delta`), odd indices are spaces
shortened by the carried overshoot. -/
def writeLoop (clk : Nat → Nat) (fuel : Nat) (wbuf : List Int) :
    List Nat → Nat → TxSt → Option TxSt
  | [], _, st => some st
  | i :: rest, delta, st =>
    if i % 2 = 1 then
      writeLoop clk fuel wbuf rest delta (send_space (wbuf.getD i 0 - (delta : Int)) st)
    else
      match send_pulse clk fuel (wbuf.getD i 0) st with
      | none => none
      | some (d, st1) => writeLoop clk fuel wbuf rest d st1

/-- Embedding of `lirc_write` (lines 506-534): `n` is the byte length of
the user buffer, `wbuf` its contents as C `int` words.  A byte length
that is not a whole number of words, or an even word count, is rejected
with `-EINVAL` before anything else happens; otherwise the alternating
pulse/space sequence is transmitted and all enabled lines are returned
to idle, and the call returns `n`. -/
def lirc_write (clk : Nat → Nat) (fuel : Nat) (wbuf : List Int) (n : Nat) (st : TxSt) :
    Option (Int × TxSt) :=
  let count := n / 4
  if n % 4 ≠ 0 ∨ count % 2 = 0 then
    some (-22, st)
  else
    match writeLoop clk fuel wbuf (List.range count) 0 st with
    | none => none
    | some st1 => some ((n : Int), setLines st1 st1.invert)

/-! ## Control interface: `lirc_ioctl` (lines 536-597) -/

/-- The ioctl commands dispatched by `lirc_ioctl`; `other` stands for
any command delegated to `lirc_dev_fop_ioctl`. -/
inductive IoctlCmd where
  | getSendMode
  | setSendMode
  | getLength
  | setSendDutyCycle
  | setSendCarrier
  | setTransmitterMask
  | other
deriving DecidableEq

/-- The module globals read and written by `lirc_ioctl`. -/
structure IoSt where
  tx_mask : Nat
  n_transmitters : Nat
  carrier : CarrierSt
deriving DecidableEq

/-- Embedding of `lirc_ioctl` (lines 536-597).  `value` is the `__u32`
fetched by `get_user` (the fetch itself is assumed successful); the
result is the C return value and the new state, or `none` for a command
delegated to the external `lirc_dev_fop_ioctl`. -/
def lirc_ioctl (cmd : IoctlCmd) (value : Nat) (st : IoSt) : Option (Int × IoSt) :=
  match cmd with
  | .getSendMode => some (-515, st)
  | .setSendMode =>
      if value ≠ LIRC_MODE_PULSE then some (-38, st) else some (0, st)
  | .getLength => some (-38, st)
  | .setSendDutyCycle =>
      if value ≤ 0 ∨ 100 < value then some (-22, st)
      else
        let r := init_timing_params value st.carrier.freq st.carrier
        some (r.1, { st with carrier := r.2 })
  | .setSendCarrier =>
      if 500000 < value ∨ value < 0 then some (-22, st)
      else
        let r := init_timing_params st.carrier.duty_cycle value st.carrier
        some (r.1, { st with carrier := r.2 })
  | .setTransmitterMask =>
      if value &&& ((1 <<< st.n_transmitters) - 1) ≠ value then
        some ((st.n_transmitters : Int), st)
      else
        some (0, { st with tx_mask := value })
  | .other => none

/-! ## Concrete states used by witnesses and counterexamples -/

/-- The module-load values of the carrier globals (lines 106-110):
`freq = 38000`, `duty_cycle = 50`, widths not yet computed. -/
def cst0 : CarrierSt := ⟨38000, 50, 0, 0, 0⟩

/-- A receive-path state with an active-low sense, zero last timestamp,
reset noise-filter statics and an empty ring buffer. -/
def dst0 : DrvSt := ⟨1, (0, 0), ⟨0, 0, 0⟩, lirc_buffer_init RBUF_LEN⟩

/-- A receive-path state whose last timestamp is 10 s, for exercising
the clock-regression branch. -/
def dst1 : DrvSt := ⟨1, (10, 0), ⟨0, 0, 0⟩, lirc_buffer_init RBUF_LEN⟩

/-- Control-interface state with one configured transmitter and the
default all-ones transmit mask (line 90). -/
def ist0 : IoSt := ⟨4294967295, 1, cst0⟩

/-- A constant clock oracle. -/
def clk0 : Nat → Nat := fun _ => 0

/-- A transmit-path state with no configured transmitters and an empty
trace. -/
def txSt0 : TxSt := ⟨0, 4294967295, false, true, 38000, 13157, 13158, 0, []⟩

/-- A transmit-path state with two configured transmitters, both
enabled, output not inverted. -/
def txSt1 : TxSt := ⟨2, 3, false, true, 38000, 13157, 13158, 0, []⟩

/-! ## Helper lemmas on the C integer helpers -/

theorem u32_nonneg (a : Int) (h0 : 0 ≤ a) (h : a < 4294967296) : u32 a = a.toNat := by
  unfold u32
  rw [Int.emod_eq_of_lt h0 h]

theorem ofU32_small (n : Nat) (h : n < 2147483648) : ofU32 n = (n : Int) := by
  unfold ofU32
  rw [if_pos h]

theorem land_pulse_bit_eq_zero (m : Nat) (h : m < 16777216) : m &&& 16777216 = 0 := by
  apply Nat.eq_of_testBit_eq
  intro i
  rw [Nat.testBit_and, Nat.zero_testBit]
  have h16 : (16777216 : Nat) = 2 ^ 24 := by norm_num
  rcases eq_or_ne i 24 with hi | hi
  · subst hi
    rw [Nat.testBit_lt_two_pow (by omega : m < 2 ^ 24)]
    rfl
  · rw [h16, Nat.testBit_two_pow_of_ne (fun he => hi he.symm)]
    simp

theorem lor_pulse_bit (m : Nat) (h : m < 16777216) :
    m ||| 16777216 = m + 16777216 := by
  have h2 : 2 ^ 24 * 1 + m = 2 ^ 24 * 1 ||| m :=
    Nat.mul_add_lt_is_or (show m < 2 ^ 24 by omega) 1
  rw [Nat.or_comm, show (16777216 : Nat) = 2 ^ 24 * 1 by norm_num, ← h2]
  omega

theorem andI_pulse_mask (a : Int) (h0 : 0 ≤ a) (h : a < 16777216) :
    andI a PULSE_MASK = a := by
  unfold andI
  have hpm : u32 PULSE_MASK = 16777215 := by decide
  rw [u32_nonneg a h0 (by omega), hpm,
    show (16777215 : Nat) = 2 ^ 24 - 1 by norm_num,
    Nat.and_pow_two_sub_one_eq_mod, Nat.mod_eq_of_lt (by omega),
    ofU32_small _ (by omega)]
  omega

theorem andI_pulse_bit (a : Int) (h0 : 0 ≤ a) (h : a < 16777216) :
    andI a PULSE_BIT = 0 := by
  unfold andI
  have hpb : u32 PULSE_BIT = 16777216 := by decide
  rw [u32_nonneg a h0 (by omega), hpb, land_pulse_bit_eq_zero a.toNat (by omega)]
  rfl

theorem orI_pulse_bit (a : Int) (h0 : 0 ≤ a) (h : a < 16777216) :
    orI a PULSE_BIT = a + 16777216 := by
  unfold orI
  have hpb : u32 PULSE_BIT = 16777216 := by decide
  rw [u32_nonneg a h0 (by omega), hpb, lor_pulse_bit a.toNat (by omega),
    ofU32_small _ (by omega)]
  omega

theorem andI_tagged_mask (a : Int) (h0 : 0 ≤ a) (h : a < 16777216) :
    andI (orI a PULSE_BIT) PULSE_MASK = a := by
  rw [orI_pulse_bit a h0 h]
  unfold andI
  have hpm : u32 PULSE_MASK = 16777215 := by decide
  rw [u32_nonneg (a + 16777216) (by omega) (by omega), hpm,
    show (16777215 : Nat) = 2 ^ 24 - 1 by norm_num,
    Nat.and_pow_two_sub_one_eq_mod,
    show (a + 16777216).toNat = a.toNat + 1 * 2 ^ 24 by omega,
    Nat.add_mul_mod_self_right, Nat.mod_eq_of_lt (by omega),
    ofU32_small _ (by omega)]
  omega

theorem andI_tagged_bit (a : Int) (h0 : 0 ≤ a) (h : a < 16777216) :
    andI (orI a PULSE_BIT) PULSE_BIT = PULSE_BIT := by
  rw [orI_pulse_bit a h0 h]
  unfold andI
  have hpb : u32 PULSE_BIT = 16777216 := by decide
  rw [u32_nonneg (a + 16777216) (by omega) (by omega), hpb]
  have hsplit : (a + 16777216).toNat = a.toNat ||| 16777216 := by
    rw [lor_pulse_bit a.toNat (by omega)]
    omega
  rw [hsplit, Nat.and_distrib_right, land_pulse_bit_eq_zero a.toNat (by omega)]
  have hself : (16777216 : Nat) &&& 16777216 = 16777216 := by decide
  rw [hself]
  decide

theorem sub32_of_le (a b : Nat) (hb : b ≤ a) (ha : a < 4294967296) :
    sub32 a b = a - b := by
  unfold sub32
  omega

theorem sub64_of_le (a b : Nat) (hb : b ≤ a) (ha : a < 18446744073709551616) :
    sub64 a b = a - b := by
  unfold sub64
  omega

theorem div_add_div_le (a b c : Nat) (hc : 0 < c) : a / c + b / c ≤ (a + b) / c := by
  rw [Nat.le_div_iff_mul_le hc, Nat.add_mul]
  exact Nat.add_le_add (Nat.div_mul_le_self a c) (Nat.div_mul_le_self b c)

theorem votes_foldl (get : Nat → Bool) (l : List Nat) (p : Nat × Nat) :
    l.foldl (fun p i => if get i then (p.1 + 1, p.2) else (p.1, p.2 + 1)) p
      = (p.1 + l.countP (fun i => get i), p.2 + l.countP (fun i => !(get i))) := by
  induction l generalizing p with
  | nil => simp
  | cons a t ih =>
    rw [List.foldl_cons, ih]
    by_cases hg : get a <;> simp [List.countP_cons, hg] <;> omega

/-- Iterate `rbwrite` over a list of records (the N+1-write experiment of
spec section 8). -/
def rbwriteAll (recs : List Int) (b : RingBuffer) : RingBuffer :=
  recs.foldl (fun b l => rbwrite l b) b

theorem rbwriteAll_fits (recs : List Int) (b : RingBuffer)
    (h : b.data.length + recs.length ≤ b.capacity) :
    rbwriteAll recs b = { b with data := b.data ++ recs } := by
  induction recs generalizing b with
  | nil => simp [rbwriteAll]
  | cons a t ih =>
    unfold rbwriteAll
    rw [List.foldl_cons]
    have hnf : lirc_buffer_full b = false := by
      unfold lirc_buffer_full
      simp only [decide_eq_false_iff_not, not_le]
      simp at h
      omega
    have hw : rbwrite a b = { b with data := b.data ++ [a] } := by
      unfold rbwrite
      rw [hnf]
      rfl
    rw [hw]
    have ht := ih { b with data := b.data ++ [a] } (by simp at h ⊢; omega)
    unfold rbwriteAll at ht
    rw [ht]
    simp

/-- The six-low-of-nine probe sequence from spec section 8: the line
reads low (`gpiochip->get` returns 0) on the first six probes and high
on the last three. -/
def sixLow : Nat → Bool := fun i => decide (6 ≤ i)

theorem frbwrite_sense (l : Int) (st : DrvSt) : (frbwrite l st).sense = st.sense := by
  simp only [frbwrite, rbwriteS]
  repeat' split
  all_goals rfl

theorem irq_handler_regr_eq (signal : Int) (tv : Int × Int) (st : DrvSt)
    (hsne : st.sense ≠ -1)
    (hreg : tv.1 < st.lasttv.1 ∨ (tv.1 = st.lasttv.1 ∧ tv.2 < st.lasttv.2)) :
    irq_handler signal tv st =
      ({ frbwrite (if xorI signal st.sense ≠ 0 then PULSE_MASK else orI PULSE_MASK PULSE_BIT) st
          with lasttv := tv },
        some (if xorI signal st.sense ≠ 0 then PULSE_MASK else orI PULSE_MASK PULSE_BIT)) := by
  unfold irq_handler
  simp only [if_neg hsne, if_pos hreg]

theorem irq_handler_normal_eq (signal : Int) (tv : Int × Int) (st : DrvSt)
    (hsne : st.sense ≠ -1)
    (hnr : ¬(tv.1 < st.lasttv.1 ∨ (tv.1 = st.lasttv.1 ∧ tv.2 < st.lasttv.2)))
    (hd15 : ¬(15 < tv.1 - st.lasttv.1)) :
    irq_handler signal tv st =
      ({ frbwrite (if xorI signal st.sense ≠ 0
            then (tv.1 - st.lasttv.1) * 1000000 + (tv.2 - st.lasttv.2)
            else orI ((tv.1 - st.lasttv.1) * 1000000 + (tv.2 - st.lasttv.2)) PULSE_BIT) st
          with lasttv := tv },
        some (if xorI signal st.sense ≠ 0
            then (tv.1 - st.lasttv.1) * 1000000 + (tv.2 - st.lasttv.2)
            else orI ((tv.1 - st.lasttv.1) * 1000000 + (tv.2 - st.lasttv.2)) PULSE_BIT)) := by
  unfold irq_handler
  simp only [if_neg hsne, if_neg hnr, if_neg hd15]

theorem safe_udelay_delay (usecs : Nat) : ∀ e ∈ safe_udelay usecs, ∃ u, e = Event.delay u := by
  induction usecs using Nat.strong_induction_on with
  | _ usecs ih =>
    rw [safe_udelay]
    split
    next h =>
      intro e he
      rcases List.mem_cons.mp he with rfl | hmem
      · exact ⟨MAX_UDELAY_US, rfl⟩
      · exact ih (usecs - MAX_UDELAY_US) (by unfold MAX_UDELAY_US at h ⊢; omega) e hmem
    next h =>
      intro e he
      rw [List.mem_singleton] at he
      exact ⟨usecs, he⟩

/-! ## Claim theorems -/

/-- C1 (corrected): a transmit request whose byte length is a whole
number of `int` words is rejected with `-EINVAL` — with no change to
any state, in particular no output-line event — exactly when the word
count is EVEN; a request with an odd word count is never rejected on
account of its length (whenever the call terminates it returns the byte
count).  The original claim has the parity backwards. -/
theorem lirc_write_length_check (clk : Nat → Nat) (fuel : Nat) (wbuf : List Int)
    (n : Nat) (st : TxSt) :
    (n % 4 = 0 → n / 4 % 2 = 0 → lirc_write clk fuel wbuf n st = some (-22, st))
    ∧ (n % 4 = 0 → n / 4 % 2 = 1 →
        ∀ r st1, lirc_write clk fuel wbuf n st = some (r, st1) → r = (n : Int)) := by
  constructor
  · intro h4 h2
    unfold lirc_write
    rw [if_pos (Or.inr h2)]
  · intro h4 h2 r st1 hres
    unfold lirc_write at hres
    rw [if_neg (by omega)] at hres
    rcases hloop : writeLoop clk fuel wbuf (List.range (n / 4)) 0 st with _ | st2 <;>
      rw [hloop] at hres <;> simp at hres
    exact hres.1.symm

/-- C1 counterexample: the claim as stated is false both ways: a
request of 8 bytes (two duration words, an even count) is rejected with
`-EINVAL`, and a request of 12 bytes (three words, an odd count) is
accepted and returns its byte count. -/
theorem lirc_write_length_cx :
    lirc_write clk0 1 [0, 0] 8 txSt0 = some (-22, txSt0)
    ∧ (lirc_write clk0 1 [0, 0, 0] 12 txSt0).map Prod.fst = some 12 := by decide

/-- Witness for C1: the rejection branch at 16 bytes (four words) and
the accepted odd request at 12 bytes, instantiated from the theorem. -/
theorem lirc_write_length_check_witness :
    lirc_write clk0 1 [0, 0, 0, 0] 16 txSt0 = some (-22, txSt0) ∧ (12 : Int) = 12 :=
  ⟨(lirc_write_length_check clk0 1 [0, 0, 0, 0] 16 txSt0).1 rfl rfl,
   (lirc_write_length_check clk0 1 [0, 0, 0] 12 txSt0).2 rfl rfl 12 txSt0 (by decide)⟩

/-- C2 (corrected): the auto-sense vote sets `sense = 1` (ActiveLow)
exactly when the number of probes reading electrically HIGH is at least
the number reading low — a high idle line indicates an active-low
receiver — and `sense = 0` (ActiveHigh) otherwise.  The original claim
(ActiveLow when the low-sample count dominates) has the polarity of the
vote backwards. -/
theorem init_port_sense_majority (get : Nat → Bool) :
    init_port_sense get =
      (if (List.range 9).countP (fun i => !(get i)) ≤ (List.range 9).countP (fun i => get i)
        then 1 else 0) := by
  unfold init_port_sense init_port_votes
  rw [votes_foldl]
  simp

/-- C2 counterexample: a line that reads low on 6 of the 9 probes
yields votes `(nlow, nhigh) = (3, 6)` and resolves to `sense = 0`
(ActiveHigh), not ActiveLow as the claim states. -/
theorem init_port_sense_cx :
    init_port_votes sixLow = (3, 6) ∧ init_port_sense sixLow = 0 := by decide

/-- C4: writing `N+1` records into an empty capacity-`N` ring buffer
never blocks (the model is a total function), drops exactly the newest
record leaving the first `N` stored in FIFO order, and sets the sticky
overflow flag. -/
theorem rbwrite_overflow (recs : List Int) (cap : Nat) (h : recs.length = cap + 1) :
    (rbwriteAll recs (lirc_buffer_init cap)).data = recs.take cap
    ∧ (rbwriteAll recs (lirc_buffer_init cap)).overflow = true := by
  have hne : recs ≠ [] := by
    intro he
    rw [he] at h
    simp at h
  obtain ⟨xs, x, hrecs⟩ : ∃ xs x, recs = xs ++ [x] :=
    ⟨recs.dropLast, recs.getLast hne, (List.dropLast_append_getLast hne).symm⟩
  subst hrecs
  have hlen : xs.length = cap := by
    simp at h
    omega
  unfold rbwriteAll
  rw [List.foldl_append]
  have hfit := rbwriteAll_fits xs (lirc_buffer_init cap) (by simp [lirc_buffer_init]; omega)
  unfold rbwriteAll at hfit
  rw [hfit]
  simp only [lirc_buffer_init, List.nil_append, List.foldl_cons, List.foldl_nil]
  unfold rbwrite
  rw [if_pos (show lirc_buffer_full ⟨cap, xs, false⟩ = true by
    simp [lirc_buffer_full, hlen])]
  constructor
  · simp [List.take_left' hlen]
  · rfl

/-- Witness for C4: three records into a capacity-2 buffer keep the
first two and set the overflow flag. -/
theorem rbwrite_overflow_witness :
    (rbwriteAll [1, 2, 3] (lirc_buffer_init 2)).data = ([1, 2, 3] : List Int).take 2
    ∧ (rbwriteAll [1, 2, 3] (lirc_buffer_init 2)).overflow = true :=
  rbwrite_overflow [1, 2, 3] 2 rfl

/-- C6: any `(duty_cycle, frequency)` pair with positive frequency
whose derived half-widths (`pulse_width = period * duty / 100`,
`space_width = period - pulse_width`) do not both exceed the 50 us
transmitter latency is rejected with `-EINVAL`, leaving every carrier
parameter unchanged. -/
theorem init_timing_params_reject (ndc nf : Nat) (st : CarrierSt)
    (hf : 0 < nf) (hd : ndc ≤ 100)
    (hbad : 1000 * 1000000 / nf * ndc / 100 ≤ 50 ∨
      1000 * 1000000 / nf - 1000 * 1000000 / nf * ndc / 100 ≤ 50) :
    init_timing_params ndc nf st = (-22, st) := by
  unfold init_timing_params
  rw [if_pos hf]
  by_cases h1 : 1000 * 1000000 / nf * ndc / 100 ≤ LIRC_TRANSMITTER_LATENCY
  · rw [if_pos h1]
  · rw [if_neg h1]
    have h2 : 1000 * 1000000 / nf * sub32 100 ndc / 100 ≤ LIRC_TRANSMITTER_LATENCY := by
      rw [sub32_of_le 100 ndc hd (by norm_num)]
      have hsum : 1000 * 1000000 / nf * ndc / 100 + 1000 * 1000000 / nf * (100 - ndc) / 100
          ≤ 1000 * 1000000 / nf := by
        calc 1000 * 1000000 / nf * ndc / 100 + 1000 * 1000000 / nf * (100 - ndc) / 100
            ≤ (1000 * 1000000 / nf * ndc + 1000 * 1000000 / nf * (100 - ndc)) / 100 :=
              div_add_div_le _ _ 100 (by norm_num)
          _ = 1000 * 1000000 / nf * 100 / 100 := by
              rw [← Nat.mul_add, Nat.add_sub_cancel' hd]
          _ = 1000 * 1000000 / nf := by omega
      unfold LIRC_TRANSMITTER_LATENCY at h1 ⊢
      omega
    rw [if_pos h2]

/-- Witness for C6: duty 1 at 500 kHz derives a 20 us pulse width,
below the 50 us latency, and is rejected with state unchanged. -/
theorem init_timing_params_reject_witness :
    init_timing_params 1 500000 cst0 = (-22, cst0) :=
  init_timing_params_reject 1 500000 cst0 (by decide) (by decide) (Or.inl (by decide))

/-- C7 counterexample: at duty 99 and frequency 198019 Hz both stored
half-widths would exceed the 50 us latency (pulse 4999, space 51), yet
`init_timing_params` rejects the pair, because its space-side check
uses `period * (100 - duty) / 100` (= 50 here), not
`period - pulse_width`. -/
theorem init_timing_params_accept_cx :
    50 < 1000 * 1000000 / 198019 * 99 / 100
    ∧ 50 < 1000 * 1000000 / 198019 - 1000 * 1000000 / 198019 * 99 / 100
    ∧ init_timing_params 99 198019 cst0 = (-22, cst0) := by decide

/-- C7 (corrected): when both CHECKED half-widths
`period * duty / 100` and `period * (100 - duty) / 100` exceed the
50 us latency (the code checks the second quantity, not
`period - pulse_width`), `init_timing_params` returns 0 and stores
`period = 1e9 / freq`, `pulse_width = period * duty / 100` and
`space_width = period - pulse_width`, so that
`pulse_width + space_width = period` exactly. -/
theorem init_timing_params_accept (ndc nf : Nat) (st : CarrierSt)
    (hf : 0 < nf) (hd : ndc ≤ 100)
    (h1 : 50 < 1000 * 1000000 / nf * ndc / 100)
    (h2 : 50 < 1000 * 1000000 / nf * (100 - ndc) / 100) :
    init_timing_params ndc nf st
      = (0, ⟨nf, ndc, 1000 * 1000000 / nf, 1000 * 1000000 / nf * ndc / 100,
          1000 * 1000000 / nf - 1000 * 1000000 / nf * ndc / 100⟩)
    ∧ 1000 * 1000000 / nf * ndc / 100
        + (1000 * 1000000 / nf - 1000 * 1000000 / nf * ndc / 100)
      = 1000 * 1000000 / nf := by
  have hple : 1000 * 1000000 / nf * ndc / 100 ≤ 1000 * 1000000 / nf := by
    calc 1000 * 1000000 / nf * ndc / 100 ≤ 1000 * 1000000 / nf * 100 / 100 :=
        Nat.div_le_div_right (Nat.mul_le_mul_left _ hd)
      _ = 1000 * 1000000 / nf := by omega
  have hdivle : 1000 * 1000000 / nf ≤ 1000 * 1000000 := Nat.div_le_self _ _
  constructor
  · unfold init_timing_params
    rw [if_pos hf,
      if_neg (by unfold LIRC_TRANSMITTER_LATENCY; omega),
      sub32_of_le 100 ndc hd (by norm_num),
      if_neg (by unfold LIRC_TRANSMITTER_LATENCY; omega)]
    simp only [sub64_of_le _ _ hple (by omega)]
  · omega

/-- Witness for C7: duty 50 at 38 kHz succeeds and the stored widths
sum exactly to the period. -/
theorem init_timing_params_accept_witness :
    init_timing_params 50 38000 cst0
      = (0, ⟨38000, 50, 1000 * 1000000 / 38000, 1000 * 1000000 / 38000 * 50 / 100,
          1000 * 1000000 / 38000 - 1000 * 1000000 / 38000 * 50 / 100⟩)
    ∧ 1000 * 1000000 / 38000 * 50 / 100
        + (1000 * 1000000 / 38000 - 1000 * 1000000 / 38000 * 50 / 100)
      = 1000 * 1000000 / 38000 :=
  init_timing_params_accept 50 38000 cst0 (by decide) (by decide) (by decide) (by decide)

/-- C8: from the reset filter state, the sequence SPACE 25000, then
PULSE 100 (`100 | PULSE_BIT` = 16777316), then SPACE 1000 makes
`frbwrite` emit nothing on the first two records and exactly
SPACE 25000, PULSE 100 (pulse bit set), SPACE 1000, in that order, on
the third. -/
theorem frbwrite_agc_trace :
    orI 100 PULSE_BIT = 16777316
    ∧ (frbwrite 25000 dst0).buf.data = []
    ∧ (frbwrite 16777316 (frbwrite 25000 dst0)).buf.data = []
    ∧ (frbwrite 1000 (frbwrite 16777316 (frbwrite 25000 dst0))).buf.data
        = [25000, 16777316, 1000] := by decide

/-- C9: `LIRC_SET_TRANSMITTER_MASK` with a value selecting any line at
or beyond `n_transmitters` returns the transmitter count and leaves
`tx_mask` unchanged; a value selecting only configured lines is stored
in `tx_mask` and the call returns 0. -/
theorem lirc_ioctl_mask (value : Nat) (st : IoSt) :
    ((∃ i, st.n_transmitters ≤ i ∧ value.testBit i = true) →
      lirc_ioctl .setTransmitterMask value st = some ((st.n_transmitters : Int), st))
    ∧ ((∀ i, st.n_transmitters ≤ i → value.testBit i = false) →
      lirc_ioctl .setTransmitterMask value st = some (0, { st with tx_mask := value })) := by
  have hmask : value &&& ((1 <<< st.n_transmitters) - 1) = value % 2 ^ st.n_transmitters := by
    rw [Nat.shiftLeft_eq, one_mul, Nat.and_pow_two_sub_one_eq_mod]
  have hbranch : lirc_ioctl .setTransmitterMask value st
      = (if value &&& ((1 <<< st.n_transmitters) - 1) ≠ value
          then some ((st.n_transmitters : Int), st)
          else some (0, { st with tx_mask := value })) := rfl
  constructor
  · rintro ⟨i, hi, hb⟩
    have hge : 2 ^ st.n_transmitters ≤ value :=
      le_trans (Nat.pow_le_pow_right (by norm_num) hi) (Nat.testBit_implies_ge hb)
    have hne : value &&& ((1 <<< st.n_transmitters) - 1) ≠ value := by
      rw [hmask]
      have hml := Nat.mod_lt value (show 0 < 2 ^ st.n_transmitters by positivity)
      omega
    rw [hbranch, if_pos hne]
  · intro hall
    have hlt : value < 2 ^ st.n_transmitters := Nat.lt_pow_two_of_testBit value hall
    have heq : value &&& ((1 <<< st.n_transmitters) - 1) = value := by
      rw [hmask]
      exact Nat.mod_eq_of_lt hlt
    rw [hbranch, if_neg (by simp [heq])]

/-- Witness for C9: with one configured transmitter, mask 2 (bit 1) is
rejected with return value 1 and mask 1 is stored with return value
0. -/
theorem lirc_ioctl_mask_witness :
    lirc_ioctl .setTransmitterMask 2 ist0 = some ((ist0.n_transmitters : Int), ist0)
    ∧ lirc_ioctl .setTransmitterMask 1 ist0 = some (0, { ist0 with tx_mask := 1 }) :=
  ⟨(lirc_ioctl_mask 2 ist0).1 ⟨1, by decide, by decide⟩,
   (lirc_ioctl_mask 1 ist0).2 (by
      intro i hi
      have h1 : 1 ≤ i := hi
      have h2 : (2 : Nat) ≤ 2 ^ i := by
        calc (2 : Nat) = 2 ^ 1 := rfl
          _ ≤ 2 ^ i := Nat.pow_le_pow_right (by norm_num) h1
      exact Nat.testBit_lt_two_pow (lt_of_lt_of_le one_lt_two h2))⟩

/-- C3 (corrected): for an edge with no clock regression and an
inter-edge delta within the idle timeout (at most 15 s at the seconds
granularity the code checks), the record handed to the Noise Filter has
magnitude exactly the microsecond delta, and its PULSE bit is set
exactly when `level XOR sense` is ZERO (the level equals the sense
bit).  The original claim (PULSE exactly when the XOR is true) is the
opposite of what the code does. -/
theorem irq_handler_pulse_tag (signal : Int) (tv : Int × Int) (st : DrvSt)
    (hs : st.sense = 0 ∨ st.sense = 1)
    (hnr : ¬(tv.1 < st.lasttv.1 ∨ (tv.1 = st.lasttv.1 ∧ tv.2 < st.lasttv.2)))
    (hdt : tv.1 - st.lasttv.1 ≤ 15)
    (hu1 : 0 ≤ tv.2) (hu2 : tv.2 < 1000000)
    (hu3 : 0 ≤ st.lasttv.2) (hu4 : st.lasttv.2 < 1000000) :
    (irq_handler signal tv st).2.isSome = true
    ∧ andI ((irq_handler signal tv st).2.getD 0) PULSE_MASK
        = (tv.1 - st.lasttv.1) * 1000000 + (tv.2 - st.lasttv.2)
    ∧ ((andI ((irq_handler signal tv st).2.getD 0) PULSE_BIT ≠ 0)
        ↔ xorI signal st.sense = 0) := by
  have hsne : st.sense ≠ -1 := by rcases hs with h | h <;> omega
  have hd0 : 0 ≤ (tv.1 - st.lasttv.1) * 1000000 + (tv.2 - st.lasttv.2) := by omega
  have hd24 : (tv.1 - st.lasttv.1) * 1000000 + (tv.2 - st.lasttv.2) < 16777216 := by omega
  rw [irq_handler_normal_eq signal tv st hsne hnr (by omega)]
  by_cases hx : xorI signal st.sense = 0
  · rw [if_neg (by simp [hx])]
    refine ⟨rfl, ?_, ?_⟩
    · exact andI_tagged_mask _ hd0 hd24
    · have hb := andI_tagged_bit _ hd0 hd24
      simp only [Option.getD_some, hb, hx]
      constructor
      · intro _
        trivial
      · intro _
        decide
  · rw [if_pos hx]
    refine ⟨rfl, ?_, ?_⟩
    · exact andI_pulse_mask _ hd0 hd24
    · have hb := andI_pulse_bit _ hd0 hd24
      simp only [Option.getD_some, hb]
      simp [hx]

/-- C3 counterexample: with sense = 1 (ActiveLow) and a low line level
(0), `level XOR sense` is 1 (true), yet the emitted record (100, the
delta) has its PULSE bit clear — a SPACE, not the PULSE the claim
requires. -/
theorem irq_handler_pulse_tag_cx :
    (irq_handler 0 (0, 100) dst0).2 = some 100
    ∧ xorI 0 dst0.sense = 1
    ∧ andI 100 PULSE_BIT = 0 := by decide

/-- Witness for C3: with sense = 1 and a high level (1), the XOR is
zero and the record of magnitude 100 comes out tagged PULSE. -/
theorem irq_handler_pulse_tag_witness :
    (irq_handler 1 (0, 100) dst0).2.isSome = true
    ∧ andI ((irq_handler 1 (0, 100) dst0).2.getD 0) PULSE_MASK
        = ((0 : Int) - dst0.lasttv.1) * 1000000 + (100 - dst0.lasttv.2)
    ∧ ((andI ((irq_handler 1 (0, 100) dst0).2.getD 0) PULSE_BIT ≠ 0)
        ↔ xorI 1 dst0.sense = 0) :=
  irq_handler_pulse_tag 1 (0, 100) dst0 (Or.inr (by decide)) (by decide) (by decide)
    (by decide) (by decide) (by decide) (by decide)

/-- C5 (corrected): on clock regression the decoder emits a record of
maximum magnitude (`PULSE_MASK`) and leaves `sense` untouched, but the
record is tagged by the ordinary `level XOR sense` rule — PULSE only
when the XOR is zero — not unconditionally PULSE as the claim
states. -/
theorem irq_handler_regression (signal : Int) (tv : Int × Int) (st : DrvSt)
    (hs : st.sense ≠ -1)
    (hreg : tv.1 < st.lasttv.1 ∨ (tv.1 = st.lasttv.1 ∧ tv.2 < st.lasttv.2)) :
    (irq_handler signal tv st).2.isSome = true
    ∧ andI ((irq_handler signal tv st).2.getD 0) PULSE_MASK = PULSE_MASK
    ∧ ((andI ((irq_handler signal tv st).2.getD 0) PULSE_BIT ≠ 0)
        ↔ xorI signal st.sense = 0)
    ∧ (irq_handler signal tv st).1.sense = st.sense := by
  rw [irq_handler_regr_eq signal tv st hs hreg]
  by_cases hx : xorI signal st.sense = 0
  · rw [if_neg (by simp [hx])]
    refine ⟨rfl, ?_, ?_, ?_⟩
    · exact andI_tagged_mask PULSE_MASK (by decide) (by decide)
    · have hb := andI_tagged_bit PULSE_MASK (by decide) (by decide)
      simp only [Option.getD_some, hb, hx]
      constructor
      · intro _
        trivial
      · intro _
        decide
    · exact frbwrite_sense _ st
  · rw [if_pos hx]
    refine ⟨rfl, ?_, ?_, ?_⟩
    · exact andI_pulse_mask PULSE_MASK (by decide) (by decide)
    · have hb := andI_pulse_mask PULSE_MASK (by decide) (by decide)
      have hb2 := andI_pulse_bit PULSE_MASK (by decide) (by decide)
      simp only [Option.getD_some, hb2]
      simp [hx]
    · exact frbwrite_sense _ st

/-- C5 counterexample: on a clock regression with sense = 1 and a low
level, the emitted record is the maximum magnitude `PULSE_MASK` but its
PULSE bit is clear — a SPACE, refuting "tagged PULSE". -/
theorem irq_handler_regression_cx :
    (irq_handler 0 (5, 0) dst1).2 = some 16777215
    ∧ PULSE_MASK = 16777215
    ∧ andI 16777215 PULSE_BIT = 0 := by decide

/-- Witness for C5: a concrete regression (timestamp 5 s after a stored
10 s) emits a maximum-magnitude record and leaves sense unchanged. -/
theorem irq_handler_regression_witness :
    (irq_handler 0 (5, 0) dst1).2.isSome = true
    ∧ andI ((irq_handler 0 (5, 0) dst1).2.getD 0) PULSE_MASK = PULSE_MASK
    ∧ ((andI ((irq_handler 0 (5, 0) dst1).2.getD 0) PULSE_BIT ≠ 0)
        ↔ xorI 0 dst1.sense = 0)
    ∧ (irq_handler 0 (5, 0) dst1).1.sense = dst1.sense :=
  irq_handler_regression 0 (5, 0) dst1 (by decide) (Or.inl (by decide))

/-- C10: `send_space` first drives every enabled output line to the
idle level (`invert`) and only then, when the compensated duration is
positive, busy-waits; a zero or negative duration produces no wait at
all, so a fully consumed compensated space still leaves the lines
idle. -/
theorem send_space_idle_first (length : Int) (st : TxSt) :
    ∃ ds, (send_space length st).trace = st.trace ++ setEvents st st.invert ++ ds
      ∧ (∀ e ∈ ds, ∃ u, e = Event.delay u)
      ∧ (length ≤ 0 → ds = [])
      ∧ (∀ i, i < st.n_transmitters → transmitter_enabled st i = true →
          Event.set i st.invert ∈ setEvents st st.invert) := by
  have hmem : ∀ i, i < st.n_transmitters → transmitter_enabled st i = true →
      Event.set i st.invert ∈ setEvents st st.invert := by
    intro i hi hen
    unfold setEvents
    apply List.mem_filterMap.mpr
    exact ⟨i, List.mem_range.mpr hi, by rw [hen]; rfl⟩
  simp only [send_space, setLines]
  by_cases hl : length ≤ 0
  · rw [if_pos hl]
    exact ⟨[], by simp, by simp, fun _ => rfl, hmem⟩
  · rw [if_neg hl]
    exact ⟨safe_udelay length.toNat, by simp, safe_udelay_delay length.toNat,
      fun hc => absurd hc hl, hmem⟩

/-- Witness for C10: a negative (fully consumed) space on a two-line
configuration appends exactly the idle set events and no delay, and
line 0 is among the lines driven idle. -/
theorem send_space_idle_first_witness :
    (send_space (-3) txSt1).trace = txSt1.trace ++ setEvents txSt1 txSt1.invert ++ []
    ∧ Event.set 0 txSt1.invert ∈ setEvents txSt1 txSt1.invert := by
  obtain ⟨ds, h1, h2, h3, h4⟩ := send_space_idle_first (-3) txSt1
  rw [h3 (by decide)] at h1
  exact ⟨h1, h4 0 (by decide) (by decide)⟩

end LircTegra
